import Mathlib

/-!
# Verification of the tg-bot-graphics message parser and data store

Shallow embedding of the repository's TypeScript sources:

* `parseMessage` — the current parser in `src/src/utils/parser.ts`
  (newline-separated lines, `' - '` or space separated pairs, comma→dot
  normalization, `parseFloat`/`isNaN`).
* `parseMessageOrig` — the earlier parser variant in `src/unnamed/part_001`
  (comma- or newline-separated pairs, quoted-key / dash / space regex
  patterns tried in order).
* `addData` / `getUserLatestData` — the per-user store in
  `src/src/services/dataService.ts`.

Strings are modelled as `List Char`; JavaScript numbers are modelled
exactly, as an inductive `JSNum` with `NaN`, signed infinities and a
rational payload (all numerals in the claims are decimal, so the rational
model is exact and no floating-point rounding is involved).  JavaScript
whitespace is modelled by its ASCII fragment, which is all the sources and
claims exercise.  `new Date(s)` on the date strings the parser builds is
modelled as calendar validation of the three numeric components (V8
rejects out-of-range components such as `"2023-02-30"` for these shapes);
an invalid date is `Option.none`, mirroring an `Invalid Date` object,
which is still truthy in JavaScript.
-/

/-- JavaScript whitespace (`\s`, `String.prototype.trim`), ASCII fragment. -/
def jsIsSpace (c : Char) : Bool :=
  c = ' ' || c = '\t' || c = '\n' || c = '\r' || c = '\x0b' || c = '\x0c'

/-- JavaScript `String.prototype.trim` on char lists. -/
def jsTrim (l : List Char) : List Char :=
  ((l.dropWhile jsIsSpace).reverse.dropWhile jsIsSpace).reverse

/-- Numeric value of a list of decimal digit characters. -/
def digitsToNat (l : List Char) : ℕ :=
  l.foldl (fun a c => 10 * a + (c.toNat - 48)) 0

/-- `String.prototype.replace` with a one-character string pattern:
replaces only the first occurrence. -/
def replaceFirstChar (a b : Char) : List Char → List Char
  | [] => []
  | c :: r => if c = a then b :: r else c :: replaceFirstChar a b r

/-- JavaScript `String.prototype.split` with a one-character separator
(matched here by a predicate, to serve `','`, `'\n'` and the separator
class of dash, slash and dot used for dates). -/
def splitBy (p : Char → Bool) : List Char → List (List Char)
  | [] => [[]]
  | c :: r =>
    if p c then [] :: splitBy p r
    else
      match splitBy p r with
      | g :: gs => (c :: g) :: gs
      | [] => [[c]]

/-- A JavaScript number: `NaN`, `±Infinity`, or an exact finite value. -/
inductive JSNum where
  | nan : JSNum
  | posInf : JSNum
  | negInf : JSNum
  | finite : ℚ → JSNum
deriving DecidableEq, Repr

/-- `parseFloat`: skip leading whitespace, optional sign, then the longest
`Infinity`-or-decimal-literal prefix; `NaN` when no prefix parses.
Trailing garbage after the numeric prefix is ignored, exactly as in JS.
The exact value `±(int.frac) × 10^(±exp)` is produced as a rational via
`mkRat` (integer arithmetic only, so that the kernel can evaluate it). -/
def jsParseFloatExp (l4 : List Char) : Bool × List Char :=
  match l4 with
  | 'e' :: r =>
    (match r with
     | '+' :: r2 => (true, r2.takeWhile Char.isDigit)
     | '-' :: r2 => (false, r2.takeWhile Char.isDigit)
     | _ => (true, r.takeWhile Char.isDigit))
  | 'E' :: r =>
    (match r with
     | '+' :: r2 => (true, r2.takeWhile Char.isDigit)
     | '-' :: r2 => (false, r2.takeWhile Char.isDigit)
     | _ => (true, r.takeWhile Char.isDigit))
  | _ => (true, [])

/-- Assemble the value once the integer digits `ip`, fraction digits `fp`
and the rest `l4` (a candidate exponent) are known. -/
def jsParseFloatFinish (pos : Bool) (ip fp l4 : List Char) : JSNum :=
  if ip = [] ∧ fp = [] then JSNum.nan
  else
    let ep := jsParseFloatExp l4
    let scale := fp.length
    let mant : ℤ := (digitsToNat ip * 10 ^ scale + digitsToNat fp : ℕ)
    let smant : ℤ := if pos then mant else -mant
    let en := digitsToNat ep.2
    JSNum.finite
      (if ep.1 then mkRat (smant * 10 ^ en) (10 ^ scale)
       else mkRat smant (10 ^ scale * 10 ^ en))

/-- After the optional sign: `Infinity` or integer/fraction digits. -/
def jsParseFloatCore (pos : Bool) (l2 : List Char) : JSNum :=
  if "Infinity".toList.isPrefixOf l2 then
    if pos then JSNum.posInf else JSNum.negInf
  else
    let ip := l2.takeWhile Char.isDigit
    match l2.drop ip.length with
    | '.' :: r =>
      jsParseFloatFinish pos ip (r.takeWhile Char.isDigit)
        (r.drop (r.takeWhile Char.isDigit).length)
    | l3 => jsParseFloatFinish pos ip [] l3

def jsParseFloat (l : List Char) : JSNum :=
  match l.dropWhile jsIsSpace with
  | '+' :: r => jsParseFloatCore true r
  | '-' :: r => jsParseFloatCore false r
  | l1 => jsParseFloatCore true l1

example : jsParseFloat "75.3".toList = JSNum.finite (mkRat 753 10) := by decide
example : jsParseFloat "5abc".toList = JSNum.finite 5 := by decide
example : jsParseFloat "Infinity".toList = JSNum.posInf := by decide
example : jsParseFloat "abc".toList = JSNum.nan := by decide
example : jsParseFloat " -2.5e1".toList = JSNum.finite (-25) := by decide

/-! ## Dates (`new Date` on the strings the parser constructs) -/

/-- The separator class of the date regexes: dash, slash or dot. -/
def isSep (c : Char) : Bool := c = '-' || c = '/' || c = '.'

/-- A calendar date as year/month/day. Time-of-day plays no role in any
claim, so a JS `Date` is abstracted to the civil date it denotes. -/
structure CivilDate where
  year : ℕ
  month : ℕ
  day : ℕ
deriving DecidableEq, Repr

def isLeapYear (y : ℕ) : Bool := (y % 4 = 0 && y % 100 ≠ 0) || y % 400 = 0

def daysInMonth (y m : ℕ) : ℕ :=
  if m = 2 then (if isLeapYear y then 29 else 28)
  else if m = 4 ∨ m = 6 ∨ m = 9 ∨ m = 11 then 30
  else 31

def isValidDate (y m d : ℕ) : Bool :=
  1 ≤ m && m ≤ 12 && 1 ≤ d && d ≤ daysInMonth y m

/-- A JS `Date` object: `none` models an `Invalid Date` (whose `getTime()`
is `NaN` but which is still a truthy object). -/
abbrev DateObj := Option CivilDate

/-- `new Date` applied to a three-component date string, given the three
numeric components: out-of-range components give an `Invalid Date`
(V8 behaviour for the `YYYY-MM-DD`-style strings this parser builds). -/
def jsNewDate3 (ys ms ds : List Char) : DateObj :=
  let y := digitsToNat ys
  let m := digitsToNat ms
  let d := digitsToNat ds
  if isValidDate y m d then some ⟨y, m, d⟩ else none

/-! ### The four date regexes of `parseMessage` (both variants share them)

`datePatterns` in the source, in order:
1. `^\s*DATE\s*:\s*(\d{4}[-\/.]\d{1,2}[-\/.]\d{1,2})\s*` (case-insensitive)
2. `^\s*DATE\s*:\s*(\d{1,2}[-\/.]\d{1,2}[-\/.]\d{4})\s*` (case-insensitive)
3. `^\s*(\d{4}[-\/.]\d{1,2}[-\/.]\d{1,2})\s*`
4. `^\s*(\d{1,2}[-\/.]\d{1,2}[-\/.]\d{4})\s*`

Each matcher returns the captured date string and the remainder of the
input after the full match (so that `replace(pattern, '')` is "keep the
remainder"). -/

/-- Exactly `n` digits. -/
def getDigits (n : ℕ) (l : List Char) : Option (List Char × List Char) :=
  let a := l.take n
  if a.length = n ∧ a.all Char.isDigit then some (a, l.drop n) else none

/-- `\d{1,2}` followed by a separator (greedy with backtracking: two
digits are taken only when a separator follows them). Consumes the
separator too. -/
def get12sep (l : List Char) : Option (List Char × Char × List Char) :=
  match l with
  | a :: b :: c :: r =>
    if a.isDigit && b.isDigit && isSep c then some ([a, b], c, r)
    else if a.isDigit && isSep b then some ([a], b, c :: r)
    else none
  | [a, b] => if a.isDigit && isSep b then some ([a], b, []) else none
  | _ => none

/-- Trailing `\d{1,2}`, greedy, no constraint on what follows. -/
def get12 (l : List Char) : Option (List Char × List Char) :=
  match l with
  | a :: b :: r =>
    if a.isDigit && b.isDigit then some ([a, b], r)
    else if a.isDigit then some ([a], b :: r)
    else none
  | [a] => if a.isDigit then some ([a], []) else none
  | [] => none

/-- Core `\d{4}[-\/.]\d{1,2}[-\/.]\d{1,2}`. -/
def matchYMD (l : List Char) : Option (List Char × List Char) :=
  match getDigits 4 l with
  | none => none
  | some (ys, r1) =>
    match r1 with
    | s1 :: r2 =>
      if isSep s1 then
        match get12sep r2 with
        | none => none
        | some (ms, s2, r3) =>
          match get12 r3 with
          | none => none
          | some (ds, r4) => some (ys ++ s1 :: ms ++ s2 :: ds, r4)
      else none
    | [] => none

/-- Core `\d{1,2}[-\/.]\d{1,2}[-\/.]\d{4}`. -/
def matchDMY (l : List Char) : Option (List Char × List Char) :=
  match get12sep l with
  | none => none
  | some (ds, s1, r1) =>
    match get12sep r1 with
    | none => none
    | some (ms, s2, r2) =>
      match getDigits 4 r2 with
      | none => none
      | some (ys, r3) => some (ds ++ s1 :: ms ++ s2 :: ys, r3)

/-- `DATE\s*:\s*` with a case-insensitive label. -/
def matchLabel (l : List Char) : Option (List Char) :=
  match l with
  | c1 :: c2 :: c3 :: c4 :: r =>
    if c1.toLower = 'd' && c2.toLower = 'a' && c3.toLower = 't' && c4.toLower = 'e' then
      match r.dropWhile jsIsSpace with
      | ':' :: r2 => some (r2.dropWhile jsIsSpace)
      | _ => none
    else none
  | _ => none

/-- One of the four anchored date patterns: leading `\s*`, optional
`DATE\s*:\s*` label, the date core, trailing `\s*`. -/
def matchDatePattern (withLabel ymd : Bool) (l : List Char) :
    Option (List Char × List Char) :=
  let l1 := l.dropWhile jsIsSpace
  match (if withLabel then matchLabel l1 else some l1) with
  | none => none
  | some l2 =>
    match (if ymd then matchYMD l2 else matchDMY l2) with
    | none => none
    | some (cap, rest) => some (cap, rest.dropWhile jsIsSpace)

/-- `/^\d{4}[-\/.]\d{1,2}[-\/.]\d{1,2}$/.test dateStr` (parser.ts line 48). -/
def testYMD (cap : List Char) : Bool :=
  match matchYMD cap with
  | some (_, []) => true
  | _ => false

/-- `/^\d{1,2}[-\/.]\d{1,2}[-\/.]\d{4}$/.test dateStr` (parser.ts line 51). -/
def testDMY (cap : List Char) : Bool :=
  match matchDMY cap with
  | some (_, []) => true
  | _ => false

/-- parser.ts lines 46–57: construct `messageDate` from the captured date
string; `prev` is the value `messageDate` held before this iteration
(kept when no branch assigns, which is unreachable for real captures). -/
def parseDateStr (prev : Option DateObj) (cap : List Char) : Option DateObj :=
  if testYMD cap then
    -- YYYY-MM-DD style: `new Date(dateStr)`
    match splitBy isSep cap with
    | [ys, ms, ds] => some (jsNewDate3 ys ms ds)
    | _ => prev
  else if testDMY cap then
    -- DD.MM.YYYY style: reorder to `${parts[2]}-${parts[1]}-${parts[0]}`
    match splitBy isSep cap with
    | [ds, ms, ys] => some (jsNewDate3 ys ms ds)
    | _ => prev
  else prev

/-- The ordered pattern list: (has `DATE:` label, is `YYYY`-first). -/
def datePatterns : List (Bool × Bool) := [(true, true), (true, false), (false, true), (false, false)]

/-- The `for (const pattern of datePatterns)` loop of parser.ts lines
40–69: on a match whose date is valid, strip the matched prefix, trim and
break; on a match whose date is invalid keep the (truthy, invalid)
`messageDate` and continue; on no match continue unchanged. -/
def runPatterns : List (Bool × Bool) → Option DateObj → List Char →
    Option DateObj × List Char
  | [], md, cl => (md, cl)
  | (lbl, ymd) :: ps, md, cl =>
    match matchDatePattern lbl ymd cl with
    | none => runPatterns ps md cl
    | some (cap, rest) =>
      match parseDateStr md cap with
      | some (some d) => (some (some d), jsTrim rest)
      | newMd => runPatterns ps newMd cl

/-- Date extraction applied to the trimmed message. -/
def extractDate (cl : List Char) : Option DateObj × List Char :=
  runPatterns datePatterns none cl

/-! ## The current parser: `parseMessage` of `src/src/utils/parser.ts` -/

/-- The two `throw new Error` shapes of the parsers, carrying the raw
fragment text (`Invalid format in line/pair: ${...}` and
`Invalid numeric value in line: ${...}`). -/
inductive ParseErr where
  | invalidFormat : List Char → ParseErr
  | invalidValue : List Char → ParseErr
deriving DecidableEq, Repr

/-- The fragment text carried by a parse error. -/
def ParseErr.fragment : ParseErr → List Char
  | .invalidFormat l => l
  | .invalidValue l => l

/-- `ParsedData` of `src/src/types.ts` (the `userId` field is never set by
the parser and is omitted). -/
structure ParsedData where
  key : List Char
  value : JSNum
  timestamp : Option DateObj
deriving DecidableEq, Repr

/-- `line.split(' - ')`: split on every occurrence of the three-character
separator, leftmost first, non-overlapping. -/
def splitDash : List Char → List (List Char)
  | [] => [[]]
  | [c] => [[c]]
  | [c, d] => [[c, d]]
  | c :: d :: e :: rest =>
    if c = ' ' ∧ d = '-' ∧ e = ' ' then [] :: splitDash rest
    else
      match splitDash (d :: e :: rest) with
      | g :: gs => (c :: g) :: gs
      | [] => [[c]]

/-- Exact match of `\d+([.,]\d+)?` (or dot-only when `allowComma` is
false) against a whole string. -/
def isNumTok (allowComma : Bool) (l : List Char) : Bool :=
  let ds := l.takeWhile Char.isDigit
  decide (ds ≠ []) &&
    (match l.drop ds.length with
     | [] => true
     | sep :: fs =>
       (sep = '.' || (allowComma && sep = ',')) && decide (fs ≠ []) && fs.all Char.isDigit)

/-- One candidate split of `(.+)\s+(numeral)$`: key part `line.take j`
(which `.` must be able to match: no line terminators), then non-empty
whitespace, then an exact numeral to the end. -/
def trySplitAt (allowComma : Bool) (line : List Char) (j : ℕ) :
    Option (List Char × List Char) :=
  let a := line.take j
  let t := line.drop j
  let w := t.takeWhile jsIsSpace
  let n := t.drop w.length
  if a ≠ [] ∧ a.all (fun c => c ≠ '\n' ∧ c ≠ '\r') ∧ w ≠ [] ∧ isNumTok allowComma n then
    some (a, n)
  else none

/-- Greedy `(.+)`: try the longest key part first. -/
def spaceGo (allowComma : Bool) (line : List Char) : ℕ → Option (List Char × List Char)
  | 0 => none
  | j + 1 =>
    match trySplitAt allowComma line (j + 1) with
    | some r => some r
    | none => spaceGo allowComma line j

/-- `line.match(/^(.+)\s+(\d+(?:[.,]\d+)?)$/)` (and the dot-only variant
of part_001): returns (key capture, numeral capture). -/
def spaceMatch (allowComma : Bool) (line : List Char) : Option (List Char × List Char) :=
  spaceGo allowComma line line.length

/-- parser.ts lines 79–99, key/value extraction for one line:
`if (line.includes(' - '))` — equivalently the `' - '`-split has ≥ 2
parts — take the split (trimmed, exactly two parts expected), else the
`^(.+)\s+(\d+(?:[.,]\d+)?)$` space form. -/
def extractKV (line : List Char) : Except ParseErr (List Char × List Char) :=
  let parts := (splitDash line).map jsTrim
  if parts.length = 1 then
    match spaceMatch true line with
    | none => .error (.invalidFormat line)
    | some (a, n) => .ok (jsTrim a, n)
  else
    match parts with
    | [p0, p1] => .ok (p0, p1)
    | _ => .error (.invalidFormat line)

/-- parser.ts lines 75–113: parse one (trimmed, non-empty) line —
key/value extraction, then comma→dot normalization, `parseFloat` and the
`isNaN` check. -/
def parseLine (md : Option DateObj) (line : List Char) : Except ParseErr ParsedData :=
  match extractKV line with
  | .error e => .error e
  | .ok (key, valueStr) =>
    let v := jsParseFloat (replaceFirstChar ',' '.' valueStr)
    if v = JSNum.nan then .error (.invalidValue line)
    else .ok ⟨key, v, md⟩

/-- `List.mapM` for `Except`, written out so that the all-or-nothing
behaviour of `lines.map(...)` with `throw` is syntactically visible. -/
def exMapM (f : α → Except ParseErr β) : List α → Except ParseErr (List β)
  | [] => .ok []
  | x :: xs =>
    match f x with
    | .error e => .error e
    | .ok y =>
      match exMapM f xs with
      | .error e => .error e
      | .ok ys => .ok (y :: ys)

/-- `cleaned.split('\n').map(line => line.trim()).filter(line => line.length > 0)`. -/
def linesOf (cl : List Char) : List (List Char) :=
  ((splitBy (· = '\n') cl).map jsTrim).filter (· ≠ [])

/-- `parseMessage` of `src/src/utils/parser.ts`. -/
def parseMessage (msg : List Char) : Except ParseErr (List ParsedData) :=
  let cleaned := jsTrim msg
  let r := extractDate cleaned
  exMapM (parseLine r.1) (linesOf r.2)

/-! ## The earlier parser variant: `parseMessage` of `src/unnamed/part_001`

Same date extraction; then a comma/newline whole-message split decision
and three regex patterns tried in order per pair. -/

/-- Prefix capture of `\d+(\.\d+)?` (greedy; the optional group is taken
only when a dot is followed by at least one digit). -/
def numCapture (l : List Char) : Option (List Char) :=
  match l.takeWhile Char.isDigit with
  | [] => none
  | ds =>
    match l.drop ds.length with
    | '.' :: r2 =>
      (match r2.takeWhile Char.isDigit with
       | [] => some ds
       | fs => some (ds ++ '.' :: fs))
    | _ => some ds

/-- Pattern 1 of part_001: leftmost match of
`"([^"]+)"\s*-\s*(\d+(\.\d+)?)` — scan for a double quote, take the
maximal quote-free run as the key, require a closing quote, optional
whitespace, a dash, optional whitespace and a numeral; on failure resume
the scan one character further. Returns (key capture, numeral capture). -/
def quotedMatch : List Char → Option (List Char × List Char)
  | [] => none
  | c :: rest =>
    if c = '"' then
      let k := rest.takeWhile (· ≠ '"')
      match k, rest.drop k.length with
      | _ :: _, '"' :: r2 =>
        (match r2.dropWhile jsIsSpace with
         | '-' :: r3 =>
           (match numCapture (r3.dropWhile jsIsSpace) with
            | some d => some (k, d)
            | none => quotedMatch rest)
         | _ => quotedMatch rest)
      | _, _ => quotedMatch rest
    else quotedMatch rest

/-- Pattern 2 of part_001: leftmost match of `([^-]+)\s*-\s*(\d+(\.\d+)?)`.
The key capture cannot cross a dash, so the match is at the first dash
that has a non-empty dash-free run before it and (after optional
whitespace) a numeral after it; `acc` is that run, reversed. -/
def dashMatch (acc : List Char) : List Char → Option (List Char × List Char)
  | [] => none
  | c :: rest =>
    if c = '-' then
      if acc.isEmpty then dashMatch [] rest
      else
        match numCapture (rest.dropWhile jsIsSpace) with
        | some d => some (acc.reverse, d)
        | none => dashMatch [] rest
    else dashMatch (c :: acc) rest

/-- part_001 lines 81–110: parse one (trimmed, non-empty) pair, trying the
three patterns in order; `parseFloat(matches[2])` is never `NaN` here
because every captured numeral is a plain decimal, and part_001 has no
`isNaN` check. -/
def parsePairOrig (md : Option DateObj) (pair : List Char) : Except ParseErr ParsedData :=
  let m1 := quotedMatch pair
  let m2 := match m1 with | some r => some r | none => dashMatch [] pair
  let m3 := match m2 with | some r => some r | none => spaceMatch false pair
  match m3 with
  | none => .error (.invalidFormat pair)
  | some (k, d) => .ok ⟨jsTrim k, jsParseFloat d, md⟩

/-- part_001 lines 72–78: the whole-message split decision — on `','` when
the remaining text contains a comma, else on `'\n'`; trim each pair and
drop empties. -/
def pairsOf (cl : List Char) : List (List Char) :=
  ((if cl.contains ',' then splitBy (· = ',') cl else splitBy (· = '\n') cl).map jsTrim).filter
    (· ≠ [])

/-- `parseMessage` of `src/unnamed/part_001`. -/
def parseMessageOrig (msg : List Char) : Except ParseErr (List ParsedData) :=
  let cleaned := jsTrim msg
  let r := extractDate cleaned
  exMapM (parsePairOrig r.1) (pairsOf r.2)

/-! ## The store: `addData` / `getUserLatestData` of
`src/src/services/dataService.ts`

Only the single-user slice `this.userDataStore[userId]` is modelled: the
claims quantify over one user's data.  A JS object with string keys
enumerates its properties in insertion order, so the slice is an
association list ordered by first insertion. -/

/-- One entry of `DataSet` (`src/src/types.ts`): parallel arrays of
values, timestamps and user ids, pushed in lockstep. Timestamps are
modelled as integers (instants ordered by `getTime()`). -/
structure SeriesEntry where
  values : List ℚ
  timestamps : List ℤ
  userIds : List ℤ
deriving DecidableEq, Repr

/-- A user's `DataSet`: metric key → parallel arrays, in insertion order. -/
abbrev DataSet := List (List Char × SeriesEntry)

/-- A record as consumed by `addData`: `timestamp` optional. -/
structure StoreInput where
  key : List Char
  value : ℚ
  timestamp : Option ℤ
deriving DecidableEq, Repr

/-- `item.timestamp || defaultTimestamp` (dataService.ts line 55). -/
def tsOf (defaultTs : ℤ) (item : StoreInput) : ℤ :=
  match item.timestamp with
  | some t => t
  | none => defaultTs

/-- Push one parsed item (dataService.ts lines 44–61): initialize the key
on first use, then push value / (timestamp or the default) / userId. -/
def pushItem (userId : ℤ) (defaultTs : ℤ) (store : DataSet) (item : StoreInput) : DataSet :=
  match store with
  | [] => [(item.key, ⟨[item.value], [tsOf defaultTs item], [userId]⟩)]
  | (k, e) :: rest =>
    if k = item.key then
      (k, ⟨e.values ++ [item.value], e.timestamps ++ [tsOf defaultTs item],
            e.userIds ++ [userId]⟩) :: rest
    else (k, e) :: pushItem userId defaultTs rest item

/-- `addData(data, userId)` on one user's slice; `defaultTs` models the
`new Date()` taken at call time. -/
def addData (data : List StoreInput) (userId : ℤ) (defaultTs : ℤ) (store : DataSet) : DataSet :=
  data.foldl (pushItem userId defaultTs) store

/-- `getUserLatestData` (dataService.ts lines 119–138): for each key with
a non-empty series, the last element of its values array. -/
def getUserLatestData (store : DataSet) : List (List Char × ℚ) :=
  store.filterMap fun ke =>
    match ke.2.values.getLast? with
    | some v => some (ke.1, v)
    | none => none

deriving instance DecidableEq for Except

/-! ### Sanity checks of the embedding on the repository's own examples -/

example :
    parseMessage "Weight - 75.3".toList =
      .ok [⟨"Weight".toList, JSNum.finite (mkRat 753 10), none⟩] := by decide

example :
    parseMessage "Weight 75,3".toList =
      .ok [⟨"Weight".toList, JSNum.finite (mkRat 753 10), none⟩] := by decide

example :
    parseMessage "DATE: 2023-05-15\nWeight 75.3\nChest 117.8".toList =
      .ok [⟨"Weight".toList, JSNum.finite (mkRat 753 10), some (some ⟨2023, 5, 15⟩)⟩,
           ⟨"Chest".toList, JSNum.finite (mkRat 1178 10), some (some ⟨2023, 5, 15⟩)⟩] := by
  decide

example :
    parseMessage "not a valid line".toList = .error (.invalidFormat "not a valid line".toList) := by
  decide

example :
    parseMessageOrig "\"temp\" - 25, \"humidity\" - 60".toList =
      .ok [⟨"temp".toList, JSNum.finite 25, none⟩,
           ⟨"humidity".toList, JSNum.finite 60, none⟩] := by decide

example :
    parseMessage "DATE: 15.05.2023\nWeight 75.3".toList =
      .ok [⟨"Weight".toList, JSNum.finite (mkRat 753 10), some (some ⟨2023, 5, 15⟩)⟩] := by
  decide

/-! ## Helper lemmas -/

/-- Two characters on which a boolean predicate disagrees are distinct. -/
theorem ne_of_pred {P : Char → Bool} {a b : Char} (h1 : P a = true) (h2 : P b = false) :
    a ≠ b := by
  intro h
  rw [h, h2] at h1
  cases h1

theorem jsIsSpace_of_isDigit {c : Char} (h : c.isDigit = true) : jsIsSpace c = false := by
  by_contra hs
  have hs' : jsIsSpace c = true := by
    cases hcs : jsIsSpace c
    · exact absurd hcs hs
    · rfl
  simp only [jsIsSpace, Bool.or_eq_true, decide_eq_true_eq] at hs'
  rcases hs' with ((((rfl | rfl) | rfl) | rfl) | rfl) | rfl <;> exact absurd h (by decide)

theorem jsTrim_eq (l : List Char) :
    jsTrim l = (l.dropWhile jsIsSpace).rdropWhile jsIsSpace := rfl

theorem jsTrim_idem (l : List Char) : jsTrim (jsTrim l) = jsTrim l := by
  rw [jsTrim_eq, jsTrim_eq]
  have hu : (l.dropWhile jsIsSpace).dropWhile jsIsSpace = l.dropWhile jsIsSpace :=
    List.dropWhile_idempotent _ _
  have h1 : ((l.dropWhile jsIsSpace).rdropWhile jsIsSpace).dropWhile jsIsSpace =
      (l.dropWhile jsIsSpace).rdropWhile jsIsSpace := by
    rcases hpre : (l.dropWhile jsIsSpace).rdropWhile jsIsSpace with _ | ⟨c, r⟩
    · simp
    · have hp : c :: r <+: l.dropWhile jsIsSpace := hpre ▸ List.rdropWhile_prefix _ _
      rcases hp with ⟨s, hs⟩
      have hc : ¬ jsIsSpace c = true := by
        rw [← hs, List.cons_append] at hu
        intro hcs
        rw [List.dropWhile_cons_of_pos hcs] at hu
        have hlen := (List.dropWhile_sublist (l := r ++ s) (p := jsIsSpace)).length_le
        rw [hu] at hlen
        simp at hlen
      rw [List.dropWhile_cons_of_neg hc]
  rw [h1, List.rdropWhile_idempotent]

theorem jsTrim_ne_nil_of_head {c : Char} (r : List Char) (hc : jsIsSpace c = false) :
    jsTrim (c :: r) ≠ [] := by
  rw [jsTrim_eq, List.dropWhile_cons_of_neg (by simp [hc])]
  intro h
  rw [List.rdropWhile_eq_nil_iff] at h
  have := h c (by simp)
  rw [hc] at this
  cases this

theorem jsTrim_eq_self_of_no_space {l : List Char}
    (h : ∀ c ∈ l, jsIsSpace c = false) : jsTrim l = l := by
  rw [jsTrim_eq]
  have h1 : l.dropWhile jsIsSpace = l := by
    rw [List.dropWhile_eq_self_iff]
    intro hl
    rw [h _ (List.get_mem l 0 hl)]
    simp
  rw [h1, List.rdropWhile_eq_self_iff]
  intro hl
  rw [h _ (List.getLast_mem hl)]
  simp

theorem head_not_space_of_jsTrim_self {c : Char} {r : List Char}
    (h : jsTrim (c :: r) = c :: r) : jsIsSpace c = false := by
  by_contra hc
  have hc' : jsIsSpace c = true := by
    cases h2 : jsIsSpace c
    · exact absurd h2 hc
    · rfl
  rw [jsTrim_eq, List.dropWhile_cons_of_pos hc'] at h
  have h1 : (List.rdropWhile jsIsSpace (List.dropWhile jsIsSpace r)).length ≤ r.length := by
    calc (List.rdropWhile jsIsSpace (List.dropWhile jsIsSpace r)).length
        ≤ (List.dropWhile jsIsSpace r).length :=
          (List.rdropWhile_prefix _ _).sublist.length_le
      _ ≤ r.length := (List.dropWhile_sublist _).length_le
  rw [h] at h1
  simp at h1

/-- Every fragment delivered by `linesOf` is non-empty and trim-stable. -/
theorem linesOf_mem {cl line : List Char} (h : line ∈ linesOf cl) :
    line ≠ [] ∧ jsTrim line = line := by
  unfold linesOf at h
  rw [List.mem_filter] at h
  rcases h with ⟨hmem, hne⟩
  rw [List.mem_map] at hmem
  rcases hmem with ⟨x, _, rfl⟩
  exact ⟨by simpa using hne, jsTrim_idem x⟩

/-- Every fragment delivered by `pairsOf` is non-empty and trim-stable. -/
theorem pairsOf_mem {cl pair : List Char} (h : pair ∈ pairsOf cl) :
    pair ≠ [] ∧ jsTrim pair = pair := by
  unfold pairsOf at h
  rw [List.mem_filter] at h
  rcases h with ⟨hmem, hne⟩
  rw [List.mem_map] at hmem
  rcases hmem with ⟨x, _, rfl⟩
  exact ⟨by simpa using hne, jsTrim_idem x⟩

theorem exMapM_ok_length {f : α → Except ParseErr β} :
    ∀ {l : List α} {ys : List β}, exMapM f l = .ok ys → ys.length = l.length := by
  intro l
  induction l with
  | nil => intro ys h; simp [exMapM] at h; simp [← h]
  | cons x xs ih =>
    intro ys h
    unfold exMapM at h
    cases hf : f x with
    | error e => rw [hf] at h; cases h
    | ok y =>
      rw [hf] at h
      cases hr : exMapM f xs with
      | error e => rw [hr] at h; cases h
      | ok ys' =>
        rw [hr] at h
        cases h
        simp [ih hr]

theorem exMapM_ok_mem {f : α → Except ParseErr β} :
    ∀ {l : List α} {ys : List β}, exMapM f l = .ok ys → ∀ y ∈ ys, ∃ x ∈ l, f x = .ok y := by
  intro l
  induction l with
  | nil => intro ys h; simp [exMapM] at h; simp [h]
  | cons x xs ih =>
    intro ys h
    unfold exMapM at h
    cases hf : f x with
    | error e => rw [hf] at h; cases h
    | ok y =>
      rw [hf] at h
      cases hr : exMapM f xs with
      | error e => rw [hr] at h; cases h
      | ok ys' =>
        rw [hr] at h
        cases h
        intro z hz
        rcases hz with _ | hz
        · exact ⟨x, by simp, hf⟩
        · rcases ih hr z (by assumption) with ⟨x', hx', hfx'⟩
          exact ⟨x', by simp [hx'], hfx'⟩

theorem exMapM_error_mem {f : α → Except ParseErr β} :
    ∀ {l : List α} {e : ParseErr}, exMapM f l = .error e → ∃ x ∈ l, f x = .error e := by
  intro l
  induction l with
  | nil => intro e h; simp [exMapM] at h
  | cons x xs ih =>
    intro e h
    unfold exMapM at h
    cases hf : f x with
    | error e' => rw [hf] at h; cases h; exact ⟨x, by simp, hf⟩
    | ok y =>
      rw [hf] at h
      cases hr : exMapM f xs with
      | error e' =>
        rw [hr] at h
        cases h
        rcases ih hr with ⟨x', hx', hfx'⟩
        exact ⟨x', by simp [hx'], hfx'⟩
      | ok ys' => rw [hr] at h; cases h

theorem splitBy_single {p : Char → Bool} :
    ∀ {l : List Char}, (∀ c ∈ l, p c = false) → splitBy p l = [l] := by
  intro l
  induction l with
  | nil => intro _; rfl
  | cons c r ih =>
    intro h
    unfold splitBy
    rw [if_neg (by simp [h c (by simp)])]
    rw [ih (fun x hx => h x (by simp [hx]))]

theorem splitDash_no_dash : ∀ l : List Char, (∀ c ∈ l, c ≠ '-') → splitDash l = [l]
  | [] => fun _ => rfl
  | [_] => fun _ => rfl
  | [_, _] => fun _ => rfl
  | c :: d :: e :: rest => fun h => by
    rw [splitDash]
    rw [if_neg (by
      rintro ⟨-, hd, -⟩
      exact h d (by simp) hd)]
    rw [splitDash_no_dash (d :: e :: rest) (fun x hx => h x (by simp at hx ⊢; tauto))]

theorem splitDash_first_prefix :
    ∀ l g : List Char, ∀ gs, splitDash l = g :: gs → g <+: l
  | [], g, gs => fun h => by
    simp [splitDash] at h
    simp [h.1]
  | [c], g, gs => fun h => by
    simp [splitDash] at h
    simp [h.1]
  | [c, d], g, gs => fun h => by
    simp [splitDash] at h
    simp [h.1]
  | c :: d :: e :: rest, g, gs => fun h => by
    rw [splitDash] at h
    by_cases hpat : c = ' ' ∧ d = '-' ∧ e = ' '
    · rw [if_pos hpat] at h
      cases h
      exact List.nil_prefix
    · rw [if_neg hpat] at h
      rcases hs : splitDash (d :: e :: rest) with _ | ⟨g', gs'⟩
      · rw [hs] at h
        cases h
        exact ⟨d :: e :: rest, rfl⟩
      · rw [hs] at h
        obtain ⟨rfl, rfl⟩ := List.cons.inj h
        rcases splitDash_first_prefix (d :: e :: rest) g' gs' hs with ⟨t, ht⟩
        exact ⟨t, by simp [ht]⟩

theorem splitDash_first_nil :
    ∀ l : List Char, ∀ gs, splitDash l = [] :: gs →
      l = [] ∨ ∃ r, l = ' ' :: '-' :: ' ' :: r
  | [], gs => fun _ => Or.inl rfl
  | [c], gs => fun h => by simp [splitDash] at h
  | [c, d], gs => fun h => by simp [splitDash] at h
  | c :: d :: e :: rest, gs => fun h => by
    rw [splitDash] at h
    by_cases hpat : c = ' ' ∧ d = '-' ∧ e = ' '
    · rcases hpat with ⟨rfl, rfl, rfl⟩
      exact Or.inr ⟨rest, rfl⟩
    · rw [if_neg hpat] at h
      rcases hs : splitDash (d :: e :: rest) with _ | ⟨g', gs'⟩
      · rw [hs] at h; cases h
      · rw [hs] at h; cases h

theorem takeWhile_append_not {p : Char → Bool} {b : Char} (hb : p b = false) :
    ∀ {k t : List Char}, (∀ c ∈ k, p c = true) → (k ++ b :: t).takeWhile p = k := by
  intro k
  induction k with
  | nil => intro t _; simp [List.takeWhile_cons, hb]
  | cons c r ih =>
    intro t h
    rw [List.cons_append, List.takeWhile_cons, h c (by simp), if_pos rfl]
    rw [ih (fun x hx => h x (by simp [hx]))]

theorem dropWhile_append_not {p : Char → Bool} {b : Char} (hb : p b = false) :
    ∀ {k t : List Char}, (∀ c ∈ k, p c = true) → (k ++ b :: t).dropWhile p = b :: t := by
  intro k
  induction k with
  | nil => intro t _; simp [List.dropWhile_cons, hb]
  | cons c r ih =>
    intro t h
    rw [List.cons_append, List.dropWhile_cons_of_pos (h c (by simp))]
    exact ih (fun x hx => h x (by simp [hx]))

theorem replaceFirst_not_mem {a b : Char} :
    ∀ {l : List Char}, a ∉ l → replaceFirstChar a b l = l := by
  intro l
  induction l with
  | nil => intro _; rfl
  | cons c r ih =>
    intro h
    unfold replaceFirstChar
    rw [if_neg (by rintro rfl; exact h (by simp))]
    rw [ih (fun hx => h (by simp [hx]))]

theorem replaceFirst_append {a b : Char} :
    ∀ {k t : List Char}, a ∉ k → replaceFirstChar a b (k ++ a :: t) = k ++ b :: t := by
  intro k
  induction k with
  | nil => intro t _; simp [replaceFirstChar]
  | cons c r ih =>
    intro t h
    rw [List.cons_append]
    unfold replaceFirstChar
    rw [if_neg (by rintro rfl; exact h (by simp))]
    rw [ih (fun hx => h (by simp [hx]))]
    simp

theorem drop_takeWhile_length {p : Char → Bool} :
    ∀ l : List Char, l.drop (l.takeWhile p).length = l.dropWhile p := by
  intro l
  induction l with
  | nil => rfl
  | cons c r ih =>
    rw [List.takeWhile_cons, List.dropWhile_cons]
    cases hp : p c with
    | false => simp [hp]
    | true => simpa [hp] using ih

theorem takeWhile_all {p : Char → Bool} {l : List Char} (h : l.all p = true) :
    l.takeWhile p = l := by
  induction l with
  | nil => rfl
  | cons c r ih =>
    simp only [List.all_cons, Bool.and_eq_true] at h
    rw [List.takeWhile_cons, h.1, if_pos rfl, ih h.2]

theorem takeWhile_eq_cons {p : Char → Bool} {l : List Char} {c : Char} {t : List Char}
    (h : l.takeWhile p = c :: t) : (∃ t2, l = c :: t2) ∧ p c = true := by
  cases l with
  | nil => cases h
  | cons d r =>
    rw [List.takeWhile_cons] at h
    cases hp : p d with
    | false => rw [hp] at h; simp at h
    | true =>
      rw [hp, if_pos rfl] at h
      obtain ⟨rfl, -⟩ := List.cons.inj h
      exact ⟨⟨r, rfl⟩, hp⟩

theorem numCapture_of_isNumTok {n : List Char} (h : isNumTok false n = true) :
    numCapture n = some n := by
  unfold isNumTok at h
  simp only [Bool.and_eq_true, decide_eq_true_eq] at h
  obtain ⟨hds, hrest⟩ := h
  cases htw : n.takeWhile Char.isDigit with
  | nil => exact absurd htw hds
  | cons d ds' =>
    have hdrop : n.drop (d :: ds').length = n.dropWhile Char.isDigit := by
      rw [← htw, drop_takeWhile_length]
    have hn := List.takeWhile_append_dropWhile (p := Char.isDigit) (l := n)
    rw [htw] at hn
    rw [htw, hdrop] at hrest
    unfold numCapture
    rw [htw]
    simp only [hdrop]
    generalize hdw : n.dropWhile Char.isDigit = dw at hrest hn ⊢
    cases dw with
    | nil =>
      simp only [List.append_nil] at hn
      simp [hn]
    | cons sep fs =>
      simp only [Bool.and_eq_true, Bool.or_eq_true, decide_eq_true_eq, Bool.false_and,
        Bool.or_false] at hrest
      obtain ⟨⟨hsep, hfs⟩, hfsd⟩ := hrest
      subst hsep
      rcases List.exists_cons_of_ne_nil hfs with ⟨f, fs2, rfl⟩
      have htk : List.takeWhile Char.isDigit (f :: fs2) = f :: fs2 := takeWhile_all hfsd
      simp [htk, ← hn]

theorem isNumTok_chars {ac : Bool} {n : List Char} (h : isNumTok ac n = true) :
    ∀ c ∈ n, c.isDigit = true ∨ c = '.' ∨ c = ',' := by
  unfold isNumTok at h
  simp only [Bool.and_eq_true, decide_eq_true_eq] at h
  obtain ⟨-, hrest⟩ := h
  intro c hc
  have hn := List.takeWhile_append_dropWhile (p := Char.isDigit) (l := n)
  rw [drop_takeWhile_length] at hrest
  rw [← hn] at hc
  rw [List.mem_append] at hc
  rcases hc with hc | hc
  · exact Or.inl (List.mem_takeWhile_imp hc)
  · generalize hdw : n.dropWhile Char.isDigit = dw at hc hrest
    cases dw with
    | nil => cases hc
    | cons sep fs =>
      simp only [Bool.and_eq_true, Bool.or_eq_true, decide_eq_true_eq] at hrest
      obtain ⟨⟨hsep, -⟩, hfsd⟩ := hrest
      rcases hc with _ | hc
      · rcases hsep with hd | ⟨-, hd⟩
        · exact Or.inr (Or.inl hd)
        · exact Or.inr (Or.inr hd)
      · exact Or.inl (by simpa using List.all_eq_true.mp hfsd c (by assumption))

theorem isNumTok_head {ac : Bool} {n : List Char} (h : isNumTok ac n = true) :
    ∃ c t, n = c :: t ∧ c.isDigit = true := by
  unfold isNumTok at h
  simp only [Bool.and_eq_true, decide_eq_true_eq] at h
  obtain ⟨hds, -⟩ := h
  cases htw : n.takeWhile Char.isDigit with
  | nil => exact absurd htw hds
  | cons d t =>
    obtain ⟨⟨t2, ht2⟩, hd⟩ := takeWhile_eq_cons htw
    exact ⟨d, t2, ht2, hd⟩

theorem quotedMatch_none : ∀ {l : List Char}, (∀ c ∈ l, c ≠ '"') → quotedMatch l = none := by
  intro l
  induction l with
  | nil => intro _; rfl
  | cons c r ih =>
    intro h
    unfold quotedMatch
    rw [if_neg (h c (by simp))]
    exact ih (fun x hx => h x (by simp [hx]))

theorem dashMatch_cons_ne {c : Char} (h : ¬ c = '-') (acc l : List Char) :
    dashMatch acc (c :: l) = dashMatch (c :: acc) l := by
  conv_lhs => rw [dashMatch]
  rw [if_neg h]

theorem dashMatch_append {k : List Char} (hk : ∀ c ∈ k, c ≠ '-') :
    ∀ (acc rest : List Char), dashMatch acc (k ++ rest) = dashMatch (k.reverse ++ acc) rest := by
  induction k with
  | nil => intro acc rest; simp
  | cons c r ih =>
    intro acc rest
    rw [List.cons_append, dashMatch_cons_ne (hk c (by simp)) acc (r ++ rest)]
    rw [ih (fun x hx => hk x (by simp [hx])) (c :: acc) rest]
    simp

theorem spaceGo_some {ac : Bool} {line : List Char} :
    ∀ {fuel : ℕ} {a n : List Char}, spaceGo ac line fuel = some (a, n) →
      ∃ j, a = line.take j ∧ a ≠ [] ∧ isNumTok ac n = true := by
  intro fuel
  induction fuel with
  | zero => intro a n h; cases h
  | succ j ih =>
    intro a n h
    unfold spaceGo at h
    cases htr : trySplitAt ac line (j + 1) with
    | none => rw [htr] at h; exact ih h
    | some r =>
      rw [htr] at h
      cases h
      unfold trySplitAt at htr
      dsimp only at htr
      split at htr
      · rename_i hcond
        obtain ⟨hane, -, -, hnum⟩ := hcond
        obtain ⟨rfl, rfl⟩ := Prod.mk.injEq .. ▸ Option.some.inj htr
        exact ⟨j + 1, rfl, hane, hnum⟩
      · cases htr

theorem spaceMatch_some {ac : Bool} {line a n : List Char}
    (h : spaceMatch ac line = some (a, n)) :
    ∃ j, a = line.take j ∧ a ≠ [] ∧ isNumTok ac n = true :=
  spaceGo_some h

theorem extractKV_error_eq {line : List Char} {e : ParseErr}
    (h : extractKV line = .error e) : e = .invalidFormat line := by
  unfold extractKV at h
  dsimp only at h
  split at h
  · split at h
    · cases h; rfl
    · cases h
  · split at h
    · cases h
    · cases h; rfl

theorem parseLine_ok_timestamp {md : Option DateObj} {line : List Char} {r : ParsedData}
    (h : parseLine md line = .ok r) : r.timestamp = md := by
  unfold parseLine at h
  dsimp only at h
  split at h
  · cases h
  · split at h
    · cases h
    · cases h; rfl

theorem parseLine_ok_value_ne_nan {md : Option DateObj} {line : List Char} {r : ParsedData}
    (h : parseLine md line = .ok r) : r.value ≠ JSNum.nan := by
  unfold parseLine at h
  dsimp only at h
  split at h
  · cases h
  · split at h
    · cases h
    · rename_i hnan
      cases h
      exact hnan

theorem parseLine_error_fragment {md : Option DateObj} {line : List Char} {e : ParseErr}
    (h : parseLine md line = .error e) : e.fragment = line := by
  unfold parseLine at h
  dsimp only at h
  split at h
  · rename_i e2 hkv
    cases h
    rw [extractKV_error_eq hkv]
    rfl
  · split at h
    · cases h; rfl
    · cases h

theorem extractKV_ok_key {line key vs : List Char} (h : extractKV line = .ok (key, vs))
    (hne : line ≠ []) (hts : jsTrim line = line) : key ≠ [] ∧ jsTrim key = key := by
  obtain ⟨hd, tl, rfl⟩ := List.exists_cons_of_ne_nil hne
  have hhd : jsIsSpace hd = false := head_not_space_of_jsTrim_self hts
  unfold extractKV at h
  dsimp only at h
  split at h
  · split at h
    · cases h
    · rename_i a n hsm
      cases h
      obtain ⟨j, rfl, hane, -⟩ := spaceMatch_some hsm
      cases j with
      | zero => simp at hane
      | succ j2 =>
        rw [List.take_succ_cons]
        exact ⟨jsTrim_ne_nil_of_head _ hhd, jsTrim_idem _⟩
  · split at h
    · rename_i p0 p1 hparts
      cases h
      cases hsd : splitDash (hd :: tl) with
      | nil => rw [hsd] at hparts; cases hparts
      | cons q0 qs =>
        rw [hsd, List.map_cons] at hparts
        obtain ⟨hq0, -⟩ := List.cons.inj hparts
        subst hq0
        cases q0 with
        | nil =>
          rcases splitDash_first_nil _ _ hsd with hnil | ⟨r2, hr2⟩
          · cases hnil
          · obtain ⟨rfl, -⟩ := List.cons.inj hr2
            exact absurd hhd (by decide)
        | cons c q0t =>
          rcases splitDash_first_prefix _ _ _ hsd with ⟨t2, ht2⟩
          rw [List.cons_append] at ht2
          obtain ⟨rfl, -⟩ := List.cons.inj ht2
          exact ⟨jsTrim_ne_nil_of_head _ hhd, jsTrim_idem _⟩
    · cases h

theorem parseLine_ok_key {md : Option DateObj} {line : List Char} {r : ParsedData}
    (h : parseLine md line = .ok r) (hne : line ≠ []) (hts : jsTrim line = line) :
    r.key ≠ [] ∧ jsTrim r.key = r.key := by
  unfold parseLine at h
  dsimp only at h
  split at h
  · cases h
  · rename_i key valueStr hkv
    split at h
    · cases h
    · cases h
      exact extractKV_ok_key hkv hne hts

theorem jsParseFloatFinish_ne_nan {pos : Bool} {ip fp l4 : List Char} (h : ip ≠ []) :
    jsParseFloatFinish pos ip fp l4 ≠ JSNum.nan := by
  unfold jsParseFloatFinish
  rw [if_neg (by tauto)]
  intro h2
  cases h2

theorem jsParseFloatCore_ne_nan {c : Char} {t2 : List Char} (pos : Bool)
    (hc : c.isDigit = true) : jsParseFloatCore pos (c :: t2) ≠ JSNum.nan := by
  have hI : c ≠ 'I' := ne_of_pred hc (by decide)
  have hpre : "Infinity".toList.isPrefixOf (c :: t2) = false := by
    show List.isPrefixOf ('I' :: _) (c :: t2) = false
    simp only [List.isPrefixOf, Bool.and_eq_false_iff]
    exact Or.inl (by simpa using fun h => hI h.symm)
  unfold jsParseFloatCore
  simp only [hpre, Bool.false_eq_true, if_false]
  rw [List.takeWhile_cons, hc, if_pos rfl]
  intro h
  split at h
  · exact jsParseFloatFinish_ne_nan (by simp) h
  · exact jsParseFloatFinish_ne_nan (by simp) h

theorem jsParseFloat_ne_nan_of_digit_head {c : Char} {t : List Char} (hc : c.isDigit = true) :
    jsParseFloat (c :: t) ≠ JSNum.nan := by
  have hs : jsIsSpace c = false := jsIsSpace_of_isDigit hc
  have hplus : c ≠ '+' := ne_of_pred hc (by decide)
  have hminus : c ≠ '-' := ne_of_pred hc (by decide)
  unfold jsParseFloat
  rw [List.dropWhile_cons_of_neg (by simp [hs])]
  intro h
  split at h
  · rename_i r heq
    obtain ⟨h1, -⟩ := List.cons.inj heq
    exact absurd h1 hplus
  · rename_i r heq
    obtain ⟨h1, -⟩ := List.cons.inj heq
    exact absurd h1 hminus
  · exact jsParseFloatCore_ne_nan true hc h

/-! ## Claim theorems -/

/-- C2, counterexample: the claim says a value string with non-numeric
trailing tokens ('Weight - 5abc') or 'Infinity' makes the whole parse fail
with a ParseError; in fact both parse successfully — `parseFloat` keeps
the numeric prefix of `5abc` and accepts `Infinity`, and the code checks
`isNaN`, not finiteness. -/
theorem c2_trailing_tokens_counterexample :
    parseMessage "Weight - 5abc".toList =
      .ok [⟨"Weight".toList, JSNum.finite 5, none⟩] ∧
    parseMessage "Weight - Infinity".toList =
      .ok [⟨"Weight".toList, JSNum.posInf, none⟩] := by
  constructor
  · decide
  · decide

/-- C2, amended: every returned record's value is the `parseFloat` of the
comma-normalized value string and is never `NaN` (though it may be
infinite, or come from a string with trailing junk); the parse fails with
a ParseError exactly when that `parseFloat` is `NaN`, e.g. on
'Weight - abc'. -/
theorem c2_values_never_nan :
    (∀ (msg : List Char) (recs : List ParsedData), parseMessage msg = .ok recs →
      ∀ r ∈ recs, r.value ≠ JSNum.nan) ∧
    parseMessage "Weight - abc".toList =
      .error (.invalidValue "Weight - abc".toList) := by
  constructor
  · intro msg recs h r hr
    unfold parseMessage at h
    dsimp only at h
    obtain ⟨line, -, hline⟩ := exMapM_ok_mem h r hr
    exact parseLine_ok_value_ne_nan hline
  · decide

/-- C2 witness: the general part applied to a concrete successful parse. -/
theorem c2_values_never_nan_witness :
    (⟨"Weight".toList, JSNum.finite 5, none⟩ : ParsedData).value ≠ JSNum.nan :=
  c2_values_never_nan.1 "Weight - 5".toList [⟨"Weight".toList, JSNum.finite 5, none⟩]
    (by decide) _ (by decide)

/-- C6: every record of a successful parse carries the message-level date
value (so all timestamps are equal), and when no date pattern matched at
all — no date header present — every timestamp is absent. -/
theorem c6_uniform_timestamp :
    (∀ (msg : List Char) (recs : List ParsedData), parseMessage msg = .ok recs →
      ∀ r ∈ recs, r.timestamp = (extractDate (jsTrim msg)).1) ∧
    (∀ (msg : List Char) (recs : List ParsedData), parseMessage msg = .ok recs →
      (extractDate (jsTrim msg)).1 = none → ∀ r ∈ recs, r.timestamp = none) := by
  have h1 : ∀ (msg : List Char) (recs : List ParsedData), parseMessage msg = .ok recs →
      ∀ r ∈ recs, r.timestamp = (extractDate (jsTrim msg)).1 := by
    intro msg recs h r hr
    unfold parseMessage at h
    dsimp only at h
    obtain ⟨line, -, hline⟩ := exMapM_ok_mem h r hr
    exact parseLine_ok_timestamp hline
  exact ⟨h1, fun msg recs h hnone r hr => (h1 msg recs h r hr).trans hnone⟩

/-- C6 witness: a dated message (all records carry the extracted date) and
an undated one (timestamp absent). -/
theorem c6_uniform_timestamp_witness :
    (⟨"Weight".toList, JSNum.finite 1, some (some ⟨2023, 5, 15⟩)⟩ : ParsedData).timestamp =
      (extractDate (jsTrim "DATE: 2023-05-15\nWeight 1".toList)).1 ∧
    (⟨"Weight".toList, JSNum.finite 1, none⟩ : ParsedData).timestamp = none := by
  constructor
  · exact c6_uniform_timestamp.1 "DATE: 2023-05-15\nWeight 1".toList
      [⟨"Weight".toList, JSNum.finite 1, some (some ⟨2023, 5, 15⟩)⟩] (by decide) _ (by decide)
  · exact c6_uniform_timestamp.2 "Weight 1".toList
      [⟨"Weight".toList, JSNum.finite 1, none⟩] (by decide) (by decide) _ (by decide)

/-- C7: a failed parse returns an error carrying the raw text of an
offending fragment (a line that itself fails), a successful parse returns
exactly one record per non-empty fragment (nothing partial, nothing
dropped), and `parse("not a valid line")` fails referencing that
fragment. -/
theorem c7_all_or_nothing :
    (∀ (msg : List Char) (e : ParseErr), parseMessage msg = .error e →
      e.fragment ∈ linesOf (extractDate (jsTrim msg)).2 ∧
        parseLine (extractDate (jsTrim msg)).1 e.fragment = .error e) ∧
    (∀ (msg : List Char) (recs : List ParsedData), parseMessage msg = .ok recs →
      recs.length = (linesOf (extractDate (jsTrim msg)).2).length) ∧
    parseMessage "not a valid line".toList =
      .error (.invalidFormat "not a valid line".toList) := by
  refine ⟨?_, ?_, by decide⟩
  · intro msg e h
    unfold parseMessage at h
    dsimp only at h
    obtain ⟨line, hmem, hline⟩ := exMapM_error_mem h
    have := parseLine_error_fragment hline
    rw [this]
    exact ⟨hmem, hline⟩
  · intro msg recs h
    unfold parseMessage at h
    dsimp only at h
    exact exMapM_ok_length h

/-- C7 witness: the error arm applied to the concrete failing message. -/
theorem c7_all_or_nothing_witness :
    (ParseErr.invalidFormat "not a valid line".toList).fragment ∈
      linesOf (extractDate (jsTrim "not a valid line".toList)).2 ∧
    parseLine (extractDate (jsTrim "not a valid line".toList)).1
      (ParseErr.invalidFormat "not a valid line".toList).fragment =
        .error (.invalidFormat "not a valid line".toList) :=
  c7_all_or_nothing.1 "not a valid line".toList _ (by decide)

/-- C9: on every successful parse, every record's key is already trimmed
and non-empty (so it is non-empty after trimming). -/
theorem c9_keys_nonempty :
    ∀ (msg : List Char) (recs : List ParsedData), parseMessage msg = .ok recs →
      ∀ r ∈ recs, jsTrim r.key = r.key ∧ r.key ≠ [] := by
  intro msg recs h r hr
  unfold parseMessage at h
  dsimp only at h
  obtain ⟨line, hmem, hline⟩ := exMapM_ok_mem h r hr
  obtain ⟨hne, hts⟩ := linesOf_mem hmem
  obtain ⟨hkne, hkts⟩ := parseLine_ok_key hline hne hts
  exact ⟨hkts, hkne⟩

/-- C9 witness. -/
theorem c9_keys_nonempty_witness :
    jsTrim ("Weight".toList) = "Weight".toList ∧ "Weight".toList ≠ [] :=
  c9_keys_nonempty "Weight - 5".toList [⟨"Weight".toList, JSNum.finite 5, none⟩]
    (by decide) ⟨"Weight".toList, JSNum.finite 5, none⟩ (by decide)

/-- C1 (part_001 variant, the cited source of the comma mode): after date
extraction, a single whole-message decision selects the separator — the
pairs are the comma-split fragments when the remaining text contains a
comma and the newline-split fragments otherwise — and the quoted
comma-separated example yields exactly two records. -/
theorem c1_comma_mode :
    (∀ msg : List Char, (extractDate (jsTrim msg)).2.contains ',' = true →
      parseMessageOrig msg =
        exMapM (parsePairOrig (extractDate (jsTrim msg)).1)
          (((splitBy (· = ',') (extractDate (jsTrim msg)).2).map jsTrim).filter (· ≠ []))) ∧
    (∀ msg : List Char, (extractDate (jsTrim msg)).2.contains ',' = false →
      parseMessageOrig msg =
        exMapM (parsePairOrig (extractDate (jsTrim msg)).1)
          (((splitBy (· = '\n') (extractDate (jsTrim msg)).2).map jsTrim).filter (· ≠ []))) ∧
    parseMessageOrig "\"temp\" - 25, \"humidity\" - 60".toList =
      .ok [⟨"temp".toList, JSNum.finite 25, none⟩,
           ⟨"humidity".toList, JSNum.finite 60, none⟩] := by
  refine ⟨?_, ?_, by decide⟩
  · intro msg h
    unfold parseMessageOrig pairsOf
    dsimp only
    rw [h]
    rfl
  · intro msg h
    unfold parseMessageOrig pairsOf
    dsimp only
    rw [h]
    rfl

/-- C1 witness: the comma arm applied to the example message. -/
theorem c1_comma_mode_witness :
    parseMessageOrig "\"temp\" - 25, \"humidity\" - 60".toList =
      exMapM
        (parsePairOrig (extractDate (jsTrim "\"temp\" - 25, \"humidity\" - 60".toList)).1)
        (((splitBy (· = ',')
              (extractDate (jsTrim "\"temp\" - 25, \"humidity\" - 60".toList)).2).map
            jsTrim).filter (· ≠ [])) :=
  c1_comma_mode.1 "\"temp\" - 25, \"humidity\" - 60".toList (by decide)

/-- The single-append slice of C10: pushing one item puts its value at the
end of its key's values array, so the latest-per-key query reports it. -/
theorem pushItem_latest {userId defaultTs : ℤ} (item : StoreInput) :
    ∀ store : DataSet,
      (getUserLatestData (pushItem userId defaultTs store item)).lookup item.key =
        some item.value := by
  intro store
  induction store with
  | nil => simp [pushItem, getUserLatestData, List.lookup]
  | cons ke rest ih =>
    obtain ⟨k, e⟩ := ke
    unfold pushItem
    by_cases hk : k = item.key
    · rw [if_pos hk]
      unfold getUserLatestData
      rw [List.filterMap_cons]
      dsimp only
      rw [List.getLast?_concat]
      dsimp only
      rw [List.lookup_cons]
      simp [hk]
    · rw [if_neg hk]
      unfold getUserLatestData
      rw [List.filterMap_cons]
      dsimp only
      cases hlast : e.values.getLast? with
      | none => exact ih
      | some v =>
        dsimp only
        rw [List.lookup_cons]
        have hbeq : (item.key == k) = false := beq_eq_false_iff_ne.mpr (Ne.symm hk)
        rw [hbeq]
        exact ih

/-- C10: `getUserLatestData` reports, per key, the value most recently
appended (the last element of the values array), which need not be the
value with the greatest timestamp: appending a historical record (older
timestamp 50) after a newer one (timestamp 100) makes the historical
value 75 the reported latest, not the newest-by-time value 80. -/
theorem c10_latest_is_last_appended :
    (∀ (store : DataSet) (userId defaultTs : ℤ) (item : StoreInput),
      (getUserLatestData (addData [item] userId defaultTs store)).lookup item.key =
        some item.value) ∧
    (getUserLatestData
        (addData [⟨"w".toList, 75, some 50⟩] 7 0
          (addData [⟨"w".toList, 80, some 100⟩] 7 0 []))).lookup "w".toList =
      some 75 ∧
    addData [⟨"w".toList, 75, some 50⟩] 7 0 (addData [⟨"w".toList, 80, some 100⟩] 7 0 []) =
      [("w".toList, ⟨[80, 75], [100, 50], [7, 7]⟩)] ∧
    (50 : ℤ) < 100 ∧ (75 : ℚ) ≠ 80 := by
  refine ⟨?_, by decide, by decide, by decide, by decide⟩
  intro store userId defaultTs item
  exact pushItem_latest item store

/-- C10 witness: the general single-append part at a concrete store. -/
theorem c10_latest_witness :
    (getUserLatestData (addData [⟨"w".toList, 42, none⟩] 7 0 [])).lookup "w".toList =
      some 42 :=
  c10_latest_is_last_appended.1 [] 7 0 ⟨"w".toList, 42, none⟩

/-- Pattern 1 of part_001 on a fragment of exactly the quoted-key dash
shape: the key capture is the quoted text and the numeral is captured
whole. -/
theorem quotedMatch_shape {k ws1 ws2 num : List Char}
    (hk1 : k ≠ []) (hk2 : ∀ c ∈ k, c ≠ '"')
    (hw1 : ∀ c ∈ ws1, jsIsSpace c = true) (hw2 : ∀ c ∈ ws2, jsIsSpace c = true)
    (hnum : isNumTok false num = true) :
    quotedMatch ('"' :: (k ++ '"' :: (ws1 ++ '-' :: (ws2 ++ num)))) = some (k, num) := by
  obtain ⟨n0, nt, hn0, hn0d⟩ := isNumTok_head hnum
  have hdw1 : (ws1 ++ '-' :: (ws2 ++ num)).dropWhile jsIsSpace = '-' :: (ws2 ++ num) :=
    dropWhile_append_not (by decide) hw1
  have hdw2 : (ws2 ++ num).dropWhile jsIsSpace = num := by
    rw [hn0]
    exact dropWhile_append_not (jsIsSpace_of_isDigit hn0d) hw2
  rw [quotedMatch]
  rw [if_pos rfl]
  have htk : (k ++ '"' :: (ws1 ++ '-' :: (ws2 ++ num))).takeWhile (· ≠ '"') = k :=
    takeWhile_append_not (by simp) (fun c hc => by simp [hk2 c hc])
  rw [htk]
  obtain ⟨k0, kt, rfl⟩ := List.exists_cons_of_ne_nil hk1
  dsimp only
  rw [← List.cons_append, List.drop_left]
  split
  · rename_i head tail r2 heq1 heq2
    obtain ⟨-, hr2⟩ := List.cons.inj heq2
    simp only [List.append_eq] at hr2 ⊢
    rw [← hr2, hdw1]
    show (match numCapture ((ws2 ++ num).dropWhile jsIsSpace) with
          | some d => some (k0 :: kt, d)
          | none => quotedMatch ((k0 :: kt) ++ '"' :: (ws1 ++ '-' :: (ws2 ++ num)))) =
        some (k0 :: kt, num)
    rw [hdw2, numCapture_of_isNumTok hnum]
  · rename_i hcontra
    exact absurd (rfl : '"' :: (ws1 ++ '-' :: (ws2 ++ num)) = '"' :: (ws1 ++ '-' :: (ws2 ++ num)))
      (fun h => hcontra k0 kt _ rfl h)

/-- C3 (part_001 variant, the cited source of the quoted-key pattern): a
fragment of quoted-key dash form parses into a record whose key is the
quoted text with the quotes stripped and trimmed and whose value is the
parseFloat of the numeral; the spec example also holds end to end. -/
theorem c3_quoted_key :
    (∀ (md : Option DateObj) (k ws1 ws2 num : List Char),
      k ≠ [] → (∀ c ∈ k, c ≠ '"') → (∀ c ∈ ws1, jsIsSpace c = true) →
      (∀ c ∈ ws2, jsIsSpace c = true) → isNumTok false num = true →
      parsePairOrig md ('"' :: (k ++ '"' :: (ws1 ++ '-' :: (ws2 ++ num)))) =
        .ok ⟨jsTrim k, jsParseFloat num, md⟩) ∧
    parseMessageOrig "\"temperature\" - 25.5".toList =
      .ok [⟨"temperature".toList, JSNum.finite (mkRat 255 10), none⟩] := by
  refine ⟨?_, by decide⟩
  intro md k ws1 ws2 num hk1 hk2 hw1 hw2 hnum
  unfold parsePairOrig
  rw [quotedMatch_shape hk1 hk2 hw1 hw2 hnum]

/-- C3 witness: the general part at `"temp" - 25`. -/
theorem c3_quoted_key_witness :
    parsePairOrig none ('"' :: ("temp".toList ++ '"' :: ([' '] ++ '-' :: ([' '] ++ "25".toList)))) =
      .ok ⟨jsTrim "temp".toList, jsParseFloat "25".toList, none⟩ :=
  c3_quoted_key.1 none "temp".toList [' '] [' '] "25".toList
    (by decide) (by decide) (by decide) (by decide) (by decide)

/-- C4, counterexample: on the fragment 'a - b - 5' (more than one dash)
the claim predicts key 'a - b' (everything up to the last dash); the code
resolves key 'b' — the `[^-]+` key capture cannot cross a dash, so the
dash-free run between the two dashes becomes the key. -/
theorem c4_last_dash_counterexample :
    parseMessageOrig "a - b - 5".toList = .ok [⟨"b".toList, JSNum.finite 5, none⟩] ∧
    "b".toList ≠ "a - b".toList := by
  constructor
  · decide
  · decide

/-- Pattern 2 of part_001 on a fragment whose only dash is the separator:
the dash-free text before the dash (trimmed later) is the key. -/
theorem dashMatch_shape {k ws num : List Char}
    (hk1 : k ≠ []) (hkd : ∀ c ∈ k, c ≠ '-')
    (hw : ∀ c ∈ ws, jsIsSpace c = true) (hnum : isNumTok false num = true) :
    dashMatch [] (k ++ '-' :: (ws ++ num)) = some (k, num) := by
  obtain ⟨n0, nt, hn0, hn0d⟩ := isNumTok_head hnum
  have hdw : (ws ++ num).dropWhile jsIsSpace = num := by
    rw [hn0]
    exact dropWhile_append_not (jsIsSpace_of_isDigit hn0d) hw
  rw [dashMatch_append hkd [] ('-' :: (ws ++ num))]
  rw [dashMatch]
  rw [if_pos rfl]
  rw [if_neg (by
    simp only [List.append_nil, List.isEmpty_eq_true, List.reverse_eq_nil_iff]
    exact fun h => hk1 h)]
  rw [hdw, numCapture_of_isNumTok hnum]
  simp

/-- C4, amended (part_001 variant, the cited source of the dash pattern):
for an unquoted fragment, the key is the dash-free run immediately before
the first dash that is followed by optional whitespace and a numeral —
not everything up to the last dash — trimmed; a dash without surrounding
spaces ('Вес-75') still resolves. -/
theorem c4_dash_key_amended :
    (∀ (md : Option DateObj) (k ws num : List Char),
      k ≠ [] → (∀ c ∈ k, c ≠ '-' ∧ c ≠ '"') → (∀ c ∈ ws, jsIsSpace c = true) →
      isNumTok false num = true →
      parsePairOrig md (k ++ '-' :: (ws ++ num)) = .ok ⟨jsTrim k, jsParseFloat num, md⟩) ∧
    parsePairOrig none "Вес-75".toList = .ok ⟨"Вес".toList, JSNum.finite 75, none⟩ ∧
    parsePairOrig none "a - b - 5".toList = .ok ⟨"b".toList, JSNum.finite 5, none⟩ := by
  refine ⟨?_, by decide, by decide⟩
  intro md k ws num hk1 hk2 hw hnum
  have hq : quotedMatch (k ++ '-' :: (ws ++ num)) = none := by
    apply quotedMatch_none
    intro c hc
    rw [List.mem_append] at hc
    rcases hc with hc | hc
    · exact (hk2 c hc).2
    · rw [List.mem_cons] at hc
      rcases hc with rfl | hc
      · decide
      · rw [List.mem_append] at hc
        rcases hc with hc | hc
        · exact ne_of_pred (hw c hc) (by decide)
        · rcases isNumTok_chars hnum c hc with hd | rfl | rfl
          · exact ne_of_pred hd (by decide)
          · decide
          · decide
  have hd := dashMatch_shape hk1 (fun c hc => (hk2 c hc).1) hw hnum
  unfold parsePairOrig
  simp only [hq, hd]

/-- C4 witness: the amended general part at `Weight - 75`. -/
theorem c4_dash_key_witness :
    parsePairOrig none ("Weight".toList ++ '-' :: ([' '] ++ "75".toList)) =
      .ok ⟨jsTrim "Weight".toList, jsParseFloat "75".toList, none⟩ :=
  c4_dash_key_amended.1 none "Weight".toList [' '] "75".toList
    (by decide) (by decide) (by decide) (by decide)

/-- Key/value extraction on a `Weight - <value>` line whose value part
contains no dash and no whitespace: the dash split yields exactly the two
trimmed parts. -/
theorem extractKV_weight_dash {v : List Char} (hnd : ∀ c ∈ v, c ≠ '-')
    (hns : ∀ c ∈ v, jsIsSpace c = false) :
    extractKV ("Weight - ".toList ++ v) = .ok ("Weight".toList, v) := by
  have hW : "Weight - ".toList ++ v =
      'W' :: 'e' :: 'i' :: 'g' :: 'h' :: 't' :: ' ' :: '-' :: ' ' :: v := rfl
  have hv : splitDash v = [v] := splitDash_no_dash v hnd
  have hsd : splitDash ("Weight - ".toList ++ v) = ["Weight".toList, v] := by
    rw [hW]
    simp +decide [splitDash, hv]
  have hjv : jsTrim v = v := jsTrim_eq_self_of_no_space hns
  have hjw : jsTrim "Weight".toList = "Weight".toList := rfl
  unfold extractKV
  dsimp only
  rw [hsd, List.map_cons, List.map_cons, List.map_nil, hjv, hjw]
  rfl

/-- C8: on `Weight - a,b` and `Weight - a.b` (digit strings `a`, `b`) the
parse succeeds and both records carry the *same* value — the parseFloat
of the dot form, because the comma is normalized to a dot first; the
space-form spec examples also hold concretely. -/
theorem c8_comma_dot_equivalent :
    (∀ (md : Option DateObj) (a b : List Char),
      a ≠ [] → b ≠ [] → a.all Char.isDigit = true → b.all Char.isDigit = true →
      parseLine md ("Weight - ".toList ++ (a ++ ',' :: b)) =
        .ok ⟨"Weight".toList, jsParseFloat (a ++ '.' :: b), md⟩ ∧
      parseLine md ("Weight - ".toList ++ (a ++ '.' :: b)) =
        .ok ⟨"Weight".toList, jsParseFloat (a ++ '.' :: b), md⟩) ∧
    parseMessage "Weight 75,3".toList =
      .ok [⟨"Weight".toList, JSNum.finite (mkRat 753 10), none⟩] ∧
    parseMessage "Weight 75.3".toList =
      .ok [⟨"Weight".toList, JSNum.finite (mkRat 753 10), none⟩] := by
  refine ⟨?_, by decide, by decide⟩
  intro md a b ha hb had hbd
  have hmema : ∀ c ∈ a, c.isDigit = true := fun c hc => List.all_eq_true.mp had c hc
  have hmemb : ∀ c ∈ b, c.isDigit = true := fun c hc => List.all_eq_true.mp hbd c hc
  have hcomma_a : ',' ∉ a := fun h => by simpa using hmema ',' h
  obtain ⟨a0, at2, rfl⟩ := List.exists_cons_of_ne_nil ha
  have ha0 : a0.isDigit = true := hmema a0 (by simp)
  have hnan : jsParseFloat ((a0 :: at2) ++ '.' :: b) ≠ JSNum.nan := by
    rw [List.cons_append]
    exact jsParseFloat_ne_nan_of_digit_head ha0
  have hchars : ∀ sep : Char, sep ≠ '-' → jsIsSpace sep = false →
      (∀ c ∈ (a0 :: at2) ++ sep :: b, c ≠ '-') ∧
        (∀ c ∈ (a0 :: at2) ++ sep :: b, jsIsSpace c = false) := by
    intro sep hsd hss
    constructor
    · intro c hc
      rcases List.mem_append.mp hc with hc | hc
      · exact ne_of_pred (hmema c hc) (by decide)
      · rcases List.mem_cons.mp hc with rfl | hc
        · exact hsd
        · exact ne_of_pred (hmemb c hc) (by decide)
    · intro c hc
      rcases List.mem_append.mp hc with hc | hc
      · exact jsIsSpace_of_isDigit (hmema c hc)
      · rcases List.mem_cons.mp hc with rfl | hc
        · exact hss
        · exact jsIsSpace_of_isDigit (hmemb c hc)
  constructor
  · obtain ⟨hnd, hns⟩ := hchars ',' (by decide) (by decide)
    have hkv := extractKV_weight_dash hnd hns
    unfold parseLine
    rw [hkv]
    dsimp only
    rw [replaceFirst_append hcomma_a]
    rw [if_neg hnan]
  · obtain ⟨hnd, hns⟩ := hchars '.' (by decide) (by decide)
    have hkv := extractKV_weight_dash hnd hns
    have hdot : ',' ∉ (a0 :: at2) ++ '.' :: b := by
      intro h
      rcases List.mem_append.mp h with h | h
      · exact hcomma_a h
      · rcases List.mem_cons.mp h with h | h
        · cases h
        · simpa using hmemb ',' h
    unfold parseLine
    rw [hkv]
    dsimp only
    rw [replaceFirst_not_mem hdot]
    rw [if_neg hnan]

/-- C8 witness: the general part at `a = 41`, `b = 9`. -/
theorem c8_comma_dot_witness :
    parseLine none ("Weight - ".toList ++ ("41".toList ++ ',' :: "9".toList)) =
      .ok ⟨"Weight".toList, jsParseFloat ("41".toList ++ '.' :: "9".toList), none⟩ ∧
    parseLine none ("Weight - ".toList ++ ("41".toList ++ '.' :: "9".toList)) =
      .ok ⟨"Weight".toList, jsParseFloat ("41".toList ++ '.' :: "9".toList), none⟩ :=
  c8_comma_dot_equivalent.1 none "41".toList "9".toList
    (by decide) (by decide) (by decide) (by decide)

/-- C5, counterexample: on an invalid calendar date (Feb 30) the date
prefix stays in the text, but parsing does *not* continue "without a
date" — the invalid `Date` is kept in `messageDate` (a truthy object), so
a record that still parses carries a present, invalid timestamp
(`some none`), not an absent one. -/
theorem c5_invalid_date_counterexample :
    parseMessage "DATE: 30.02.2023, Weight - 5".toList =
      .ok [⟨"DATE: 30.02.2023, Weight".toList, JSNum.finite 5, some none⟩] ∧
    (some (none : DateObj) : Option DateObj) ≠ none := by
  constructor
  · decide
  · decide

theorem isSep_of_isDigit {c : Char} (h : c.isDigit = true) : isSep c = false := by
  by_contra hs
  have hs' : isSep c = true := by
    cases hcs : isSep c
    · exact absurd hcs hs
    · rfl
  simp only [isSep, Bool.or_eq_true, decide_eq_true_eq] at hs'
  rcases hs' with (rfl | rfl) | rfl <;> exact absurd h (by decide)

section DmyExtraction

variable {d1 d2 m1 m2 y1 y2 y3 y4 : Char}

/-- The `DD.MM.YYYY` capture body, as a plain char list. -/
theorem matchYMD_dmy_fail (hd1 : d1.isDigit = true) (hd2 : d2.isDigit = true)
    (rest : List Char) :
    matchYMD (d1 :: d2 :: '.' :: rest) = none := by
  unfold matchYMD getDigits
  cases rest with
  | nil => simp +decide [hd1, hd2]
  | cons c r => simp +decide [hd1, hd2]

theorem matchDMY_dmy (hd1 : d1.isDigit = true) (hd2 : d2.isDigit = true)
    (hm1 : m1.isDigit = true) (hm2 : m2.isDigit = true)
    (hy1 : y1.isDigit = true) (hy2 : y2.isDigit = true)
    (hy3 : y3.isDigit = true) (hy4 : y4.isDigit = true) :
    matchDMY [d1, d2, '.', m1, m2, '.', y1, y2, y3, y4] =
      some ([d1, d2, '.', m1, m2, '.', y1, y2, y3, y4], []) := by
  unfold matchDMY get12sep getDigits
  simp +decide [hd1, hd2, hm1, hm2, hy1, hy2, hy3, hy4]

theorem matchLabel_date (l : List Char) (hl : l ≠ [] → jsIsSpace l.headI = false) :
    matchLabel ('D' :: 'A' :: 'T' :: 'E' :: ':' :: ' ' :: l) = some l := by
  have h1 : jsIsSpace ':' = false := by decide
  have h2 : jsIsSpace ' ' = true := by decide
  cases l with
  | nil => simp +decide [matchLabel, List.dropWhile, h1, h2]
  | cons c r =>
    have hc : jsIsSpace c = false := by simpa using hl (by simp)
    simp +decide [matchLabel, List.dropWhile, h1, h2, hc]

end DmyExtraction

section DmyExtraction2

variable {d1 d2 m1 m2 y1 y2 y3 y4 : Char}

/-- Pattern 1 (`DATE:` + `YYYY`-first) fails on a labelled `DD.MM.YYYY`
message: after the label, `\d{4}` cannot cross the first dot. -/
theorem pat1_dmy_fail (hd1 : d1.isDigit = true) (hd2 : d2.isDigit = true)
    (w1 w2 z1 z2 z3 z4 : Char) :
    matchDatePattern true true
      ('D' :: 'A' :: 'T' :: 'E' :: ':' :: ' ' ::
        [d1, d2, '.', w1, w2, '.', z1, z2, z3, z4]) = none := by
  have hD : jsIsSpace 'D' = false := by decide
  have hlab := matchLabel_date [d1, d2, '.', w1, w2, '.', z1, z2, z3, z4]
    (fun _ => by simpa using jsIsSpace_of_isDigit hd1)
  unfold matchDatePattern
  simp only [List.dropWhile_cons, hD, Bool.false_eq_true, if_false, if_true, hlab,
    matchYMD_dmy_fail hd1 hd2]

/-- Pattern 2 (`DATE:` + `DD.MM.YYYY`) matches a labelled `DD.MM.YYYY`
message with nothing left over. -/
theorem pat2_dmy (hd1 : d1.isDigit = true) (hd2 : d2.isDigit = true)
    (hm1 : m1.isDigit = true) (hm2 : m2.isDigit = true)
    (hy1 : y1.isDigit = true) (hy2 : y2.isDigit = true)
    (hy3 : y3.isDigit = true) (hy4 : y4.isDigit = true) :
    matchDatePattern true false
      ('D' :: 'A' :: 'T' :: 'E' :: ':' :: ' ' ::
        [d1, d2, '.', m1, m2, '.', y1, y2, y3, y4]) =
      some ([d1, d2, '.', m1, m2, '.', y1, y2, y3, y4], []) := by
  have hD : jsIsSpace 'D' = false := by decide
  have hlab := matchLabel_date [d1, d2, '.', m1, m2, '.', y1, y2, y3, y4]
    (fun _ => by simpa using jsIsSpace_of_isDigit hd1)
  unfold matchDatePattern
  simp only [List.dropWhile_cons, hD, Bool.false_eq_true, if_false, if_true, hlab,
    matchDMY_dmy hd1 hd2 hm1 hm2 hy1 hy2 hy3 hy4]
  simp [List.dropWhile]

/-- The two bare patterns fail on a labelled message: it starts with `D`,
not a digit. -/
theorem pat34_dmy_fail (rest : List Char) (ymd : Bool) :
    matchDatePattern false ymd ('D' :: 'A' :: 'T' :: 'E' :: ':' :: ' ' :: rest) = none := by
  have hD : jsIsSpace 'D' = false := by decide
  unfold matchDatePattern
  cases ymd with
  | true =>
    unfold matchYMD getDigits
    simp only [List.dropWhile_cons, hD, Bool.false_eq_true, if_false, if_true]
    simp +decide
  | false =>
    unfold matchDMY get12sep
    simp only [List.dropWhile_cons, hD, Bool.false_eq_true, if_false, if_true]
    simp +decide

/-- `parseDateStr` on a `DD.MM.YYYY` capture: shape test 2 fires, the
components are reordered to year-month-day and calendar-validated. -/
theorem parseDateStr_dmy (prev : Option DateObj)
    (hd1 : d1.isDigit = true) (hd2 : d2.isDigit = true)
    (hm1 : m1.isDigit = true) (hm2 : m2.isDigit = true)
    (hy1 : y1.isDigit = true) (hy2 : y2.isDigit = true)
    (hy3 : y3.isDigit = true) (hy4 : y4.isDigit = true) :
    parseDateStr prev [d1, d2, '.', m1, m2, '.', y1, y2, y3, y4] =
      some (jsNewDate3 [y1, y2, y3, y4] [m1, m2] [d1, d2]) := by
  have htY : testYMD [d1, d2, '.', m1, m2, '.', y1, y2, y3, y4] = false := by
    unfold testYMD
    rw [matchYMD_dmy_fail hd1 hd2]
  have htD : testDMY [d1, d2, '.', m1, m2, '.', y1, y2, y3, y4] = true := by
    unfold testDMY
    rw [matchDMY_dmy hd1 hd2 hm1 hm2 hy1 hy2 hy3 hy4]
  have hsp : splitBy isSep [d1, d2, '.', m1, m2, '.', y1, y2, y3, y4] =
      [[d1, d2], [m1, m2], [y1, y2, y3, y4]] := by
    simp +decide [splitBy, isSep_of_isDigit hd1, isSep_of_isDigit hd2,
      isSep_of_isDigit hm1, isSep_of_isDigit hm2, isSep_of_isDigit hy1,
      isSep_of_isDigit hy2, isSep_of_isDigit hy3, isSep_of_isDigit hy4]
  unfold parseDateStr
  rw [htY]
  simp only [Bool.false_eq_true, if_false, htD, if_pos rfl, hsp]
  simp

/-- Date extraction on a labelled `DD.MM.YYYY`-only message: the capture
is reinterpreted year-month-day; a valid date is stripped (nothing
remains), an invalid one leaves the whole text and keeps the invalid
(truthy) `messageDate`. -/
theorem extractDate_dmy_label
    (hd1 : d1.isDigit = true) (hd2 : d2.isDigit = true)
    (hm1 : m1.isDigit = true) (hm2 : m2.isDigit = true)
    (hy1 : y1.isDigit = true) (hy2 : y2.isDigit = true)
    (hy3 : y3.isDigit = true) (hy4 : y4.isDigit = true) :
    extractDate ("DATE: ".toList ++ [d1, d2, '.', m1, m2, '.', y1, y2, y3, y4]) =
      (some (jsNewDate3 [y1, y2, y3, y4] [m1, m2] [d1, d2]),
        if (jsNewDate3 [y1, y2, y3, y4] [m1, m2] [d1, d2]).isSome then []
        else "DATE: ".toList ++ [d1, d2, '.', m1, m2, '.', y1, y2, y3, y4]) := by
  have hcl : "DATE: ".toList ++ [d1, d2, '.', m1, m2, '.', y1, y2, y3, y4] =
      'D' :: 'A' :: 'T' :: 'E' :: ':' :: ' ' :: [d1, d2, '.', m1, m2, '.', y1, y2, y3, y4] := rfl
  have h1 := pat1_dmy_fail hd1 hd2 m1 m2 y1 y2 y3 y4
  have h2 := pat2_dmy hd1 hd2 hm1 hm2 hy1 hy2 hy3 hy4
  have hps := parseDateStr_dmy none hd1 hd2 hm1 hm2 hy1 hy2 hy3 hy4
  rw [hcl]
  cases hnd : jsNewDate3 [y1, y2, y3, y4] [m1, m2] [d1, d2] with
  | some dte =>
    rw [hnd] at hps
    unfold extractDate datePatterns
    simp only [runPatterns, h1, h2, hps, hnd]
    simp [jsTrim]
  | none =>
    rw [hnd] at hps
    unfold extractDate datePatterns
    simp only [runPatterns, h1, h2, hps, hnd, pat34_dmy_fail]
    simp

end DmyExtraction2

/-- C5, amended: a leading `DD.MM.YYYY` date token (with `DATE:` label)
is reinterpreted day/month/year → `YYYY-MM-DD` before construction; when
the reordered components form a valid calendar date it is extracted and
the prefix stripped, and the concrete example carries year 2023, month 5,
day 15. When they do not (e.g. 30.02.2023), the date prefix stays in the
text, but parsing does not continue "without a date": the invalid Date is
retained as `messageDate`, so records that still parse carry a present,
invalid timestamp. -/
theorem c5_dmy_reinterpretation :
    (∀ d1 d2 m1 m2 y1 y2 y3 y4 : Char,
      d1.isDigit = true → d2.isDigit = true → m1.isDigit = true → m2.isDigit = true →
      y1.isDigit = true → y2.isDigit = true → y3.isDigit = true → y4.isDigit = true →
      isValidDate (digitsToNat [y1, y2, y3, y4]) (digitsToNat [m1, m2])
          (digitsToNat [d1, d2]) = true →
      extractDate ("DATE: ".toList ++ [d1, d2, '.', m1, m2, '.', y1, y2, y3, y4]) =
        (some (some ⟨digitsToNat [y1, y2, y3, y4], digitsToNat [m1, m2],
          digitsToNat [d1, d2]⟩), [])) ∧
    (∀ d1 d2 m1 m2 y1 y2 y3 y4 : Char,
      d1.isDigit = true → d2.isDigit = true → m1.isDigit = true → m2.isDigit = true →
      y1.isDigit = true → y2.isDigit = true → y3.isDigit = true → y4.isDigit = true →
      isValidDate (digitsToNat [y1, y2, y3, y4]) (digitsToNat [m1, m2])
          (digitsToNat [d1, d2]) = false →
      extractDate ("DATE: ".toList ++ [d1, d2, '.', m1, m2, '.', y1, y2, y3, y4]) =
        (some none, "DATE: ".toList ++ [d1, d2, '.', m1, m2, '.', y1, y2, y3, y4])) ∧
    parseMessage "DATE: 15.05.2023\nWeight 75.3".toList =
      .ok [⟨"Weight".toList, JSNum.finite (mkRat 753 10), some (some ⟨2023, 5, 15⟩)⟩] ∧
    parseMessage "DATE: 30.02.2023, Weight - 5".toList =
      .ok [⟨"DATE: 30.02.2023, Weight".toList, JSNum.finite 5, some none⟩] := by
  refine ⟨?_, ?_, by decide, by decide⟩
  · intro d1 d2 m1 m2 y1 y2 y3 y4 hd1 hd2 hm1 hm2 hy1 hy2 hy3 hy4 hval
    rw [extractDate_dmy_label hd1 hd2 hm1 hm2 hy1 hy2 hy3 hy4]
    unfold jsNewDate3
    rw [if_pos hval]
    simp
  · intro d1 d2 m1 m2 y1 y2 y3 y4 hd1 hd2 hm1 hm2 hy1 hy2 hy3 hy4 hval
    rw [extractDate_dmy_label hd1 hd2 hm1 hm2 hy1 hy2 hy3 hy4]
    unfold jsNewDate3
    rw [if_neg (by rw [hval]; simp)]
    simp

/-- C5 witness: both general arms at concrete digits (15.05.2023 valid,
30.02.2023 invalid). -/
theorem c5_dmy_reinterpretation_witness :
    extractDate ("DATE: ".toList ++ ['1', '5', '.', '0', '5', '.', '2', '0', '2', '3']) =
      (some (some ⟨digitsToNat ['2', '0', '2', '3'], digitsToNat ['0', '5'],
        digitsToNat ['1', '5']⟩), []) ∧
    extractDate ("DATE: ".toList ++ ['3', '0', '.', '0', '2', '.', '2', '0', '2', '3']) =
      (some none, "DATE: ".toList ++ ['3', '0', '.', '0', '2', '.', '2', '0', '2', '3']) := by
  constructor
  · exact c5_dmy_reinterpretation.1 '1' '5' '0' '5' '2' '0' '2' '3'
      (by decide) (by decide) (by decide) (by decide) (by decide) (by decide) (by decide)
      (by decide) (by decide)
  · exact c5_dmy_reinterpretation.2.1 '3' '0' '0' '2' '2' '0' '2' '3'
      (by decide) (by decide) (by decide) (by decide) (by decide) (by decide) (by decide)
      (by decide) (by decide)
